import Mathlib

/-!
Verification development for the chaoscope sensor core: register-level
sensor drivers (inertial, magnetometer), calibration routines (gyroscope
bias averaging, magnetometer ellipsoid fit), and the orientation filter
start-up path.  Real arithmetic of the Python source (floats) is embedded
as exact rational arithmetic over ℚ; raw register values are ℤ; library
calls without source (numpy eigendecomposition, scipy matrix square root,
scalar square root) are oracle parameters.
-/

namespace Chaoscope

open scoped Quaternion

/-! ## Sensor scaling constants (chaoscope_lib/inertial.py, magnometer.py) -/

/-- Accelerometer full-scale range, in g (IMU.accel_scale). -/
def accel_scale : ℚ := 4

/-- Accelerometer sensitivity, milli-g per LSB (IMU.accel_sens). -/
def accel_sens : ℚ := 0.122

/-- Gyroscope full-scale range, in degrees/second (IMU.gyro_scale). -/
def gyro_scale : ℚ := 500

/-- Gyroscope sensitivity, milli-deg/sec per LSB (IMU.gyro_sens). -/
def gyro_sens : ℚ := 17.5

/-- Magnetometer full-scale range, in gauss (Magnometer.mag_scale). -/
def mag_scale : ℚ := 4

/-- Magnetometer sensitivity, LSB per gauss (Magnometer.mag_sens). -/
def mag_sens : ℚ := 6842

/-- IMU._scale_raw_accel: scale a raw accelerometer register value to g,
saturating at plus or minus the configured full scale. -/
def scale_raw_accel (raw : ℤ) : ℚ :=
  let scaled : ℚ := (raw : ℚ) * accel_sens / 1000
  if scaled > accel_scale then accel_scale
  else if scaled < -accel_scale then -accel_scale
  else scaled

/-- IMU._scale_raw_gyro: scale a raw gyroscope register value to
degrees/second, saturating at plus or minus the configured full scale. -/
def scale_raw_gyro (raw : ℤ) : ℚ :=
  let scaled : ℚ := (raw : ℚ) * gyro_sens / 1000
  if scaled > gyro_scale then gyro_scale
  else if scaled < -gyro_scale then -gyro_scale
  else scaled

/-- Magnometer._scale_raw_mag: scale a raw magnetometer register value.
The intermediate value is in gauss; the saturation branches return the
gauss-valued bound itself, while the in-range branch converts to
microtesla by multiplying by 100 (as in the source). -/
def scale_raw_mag (raw : ℤ) : ℚ :=
  let scaled : ℚ := (raw : ℚ) / mag_sens
  if scaled > mag_scale then mag_scale
  else if scaled < -mag_scale then -mag_scale
  else scaled * 100

/-! ## Claims C1 and C10: saturation behaviour of the scaling routines -/

/-- Claim C1 (code behaviour at the failing input): for the saturating raw
magnetometer value 32767 (32767/6842 ≈ 4.79 gauss, beyond the 4-gauss
boundary), `scale_raw_mag` returns 4, the gauss-domain clamp constant,
which is not the full-scale value expressed in the routine's declared
output unit of microtesla (4 gauss = 400 µT). -/
theorem C1_code_behaviour :
    scale_raw_mag 32767 = 4 ∧ scale_raw_mag 32767 ≠ mag_scale * 100 := by
  constructor
  · show (if (32767 : ℚ) / 6842 > 4 then (4 : ℚ)
      else if (32767 : ℚ) / 6842 < -4 then (-4 : ℚ)
      else (32767 : ℚ) / 6842 * 100) = 4
    norm_num
  · show (if (32767 : ℚ) / 6842 > 4 then (4 : ℚ)
      else if (32767 : ℚ) / 6842 < -4 then (-4 : ℚ)
      else (32767 : ℚ) / 6842 * 100) ≠ 4 * 100
    norm_num

/-- Claim C10: for every signed 16-bit raw accelerometer value, the scaled
magnitude |raw * 0.122 / 1000| stays strictly below the 4 g full scale, so
neither saturation branch of `_scale_raw_accel` is ever taken and the
routine returns exactly raw * sensitivity / 1000. -/
theorem C10_accel_saturation_unreachable (raw : ℤ)
    (hlo : -32768 ≤ raw) (hhi : raw ≤ 32767) :
    scale_raw_accel raw = (raw : ℚ) * accel_sens / 1000 ∧
      |(raw : ℚ) * accel_sens / 1000| < accel_scale := by
  have hlo' : (-32768 : ℚ) ≤ (raw : ℚ) := by exact_mod_cast hlo
  have hhi' : (raw : ℚ) ≤ 32767 := by exact_mod_cast hhi
  have hs : accel_sens = 0.122 := rfl
  have hub : (raw : ℚ) * accel_sens / 1000 < 4 := by
    rw [hs]; nlinarith
  have hlb : -4 < (raw : ℚ) * accel_sens / 1000 := by
    rw [hs]; nlinarith
  refine ⟨?_, ?_⟩
  · unfold scale_raw_accel
    have h1 : ¬ ((raw : ℚ) * accel_sens / 1000 > accel_scale) := by
      unfold accel_scale; push_neg; linarith
    have h2 : ¬ ((raw : ℚ) * accel_sens / 1000 < -accel_scale) := by
      unfold accel_scale; push_neg; linarith
    simp only [h1, if_false, h2]
  · rw [abs_lt]
    unfold accel_scale
    exact ⟨hlb, hub⟩

/-- Witness for claim C10 at the extreme raw value 32767. -/
theorem C10_witness :
    scale_raw_accel 32767 = (32767 : ℚ) * accel_sens / 1000 ∧
      |(32767 : ℚ) * accel_sens / 1000| < accel_scale :=
  C10_accel_saturation_unreachable 32767 (by norm_num) (by norm_num)

/-! ## Gyroscope calibration (IMU.run_gyro_calibration) -/

/-- Gyroscope bias state held by the IMU driver
(self._gyro_offset_x, self._gyro_offset_y, self._gyro_offset_z). -/
structure IMUState where
  offx : ℚ
  offy : ℚ
  offz : ℚ
deriving DecidableEq

/-- IMU.get_scaled_gyro: the scaled raw vector minus the stored per-axis
bias. -/
def get_scaled_gyro (st : IMUState) (raw : ℤ × ℤ × ℤ) : ℚ × ℚ × ℚ :=
  (scale_raw_gyro raw.1 - st.offx,
   scale_raw_gyro raw.2.1 - st.offy,
   scale_raw_gyro raw.2.2 - st.offz)

/-- statistics.fmean: arithmetic mean of a list (the Python function is
undefined on the empty list; here division by zero yields 0). -/
def fmean (xs : List ℚ) : ℚ := xs.sum / (xs.length : ℚ)

/-- One iteration of the sampling loop in IMU.run_gyro_calibration: read a
scaled sample with the (zeroed) bias state, append each component to its
per-axis list, and feed the sample to the observer callback.  The observer
carries its own state of type A; the source calls it purely for display. -/
def gyro_calib_step {A : Type} (obs : A → ℚ × ℚ × ℚ → A)
    (acc : List ℚ × List ℚ × List ℚ × A) (raw : ℤ × ℤ × ℤ) :
    List ℚ × List ℚ × List ℚ × A :=
  let m := get_scaled_gyro ⟨0, 0, 0⟩ raw
  (acc.1 ++ [m.1], acc.2.1 ++ [m.2.1], acc.2.2.1 ++ [m.2.2], obs acc.2.2.2 m)

/-- IMU.run_gyro_calibration: zero the stored bias, sample the gyroscope
over the given raw stream (calling the observer on each sample), then set
and return the per-axis arithmetic mean.  Returns the final driver state,
the returned offsets, and the observer's final state. -/
def run_gyro_calibration {A : Type} (st : IMUState)
    (samples : List (ℤ × ℤ × ℤ)) (obs : A → ℚ × ℚ × ℚ → A) (a0 : A) :
    IMUState × (ℚ × ℚ × ℚ) × A :=
  -- the source assigns self._gyro_offset_* = 0.0 before the loop, so the
  -- loop reads through the zeroed state, not through st
  let r := samples.foldl (gyro_calib_step obs) ([], [], [], a0)
  let ox := fmean r.1
  let oy := fmean r.2.1
  let oz := fmean r.2.2.1
  (⟨ox, oy, oz⟩, (ox, oy, oz), r.2.2.2)

/-- Characterization of the sampling fold: the three per-axis lists collect
the bias-uncorrected scaled components in order, and the observer state is
folded independently. -/
theorem gyro_calib_foldl {A : Type} (obs : A → ℚ × ℚ × ℚ → A)
    (samples : List (ℤ × ℤ × ℤ)) (xs ys zs : List ℚ) (a : A) :
    samples.foldl (gyro_calib_step obs) (xs, ys, zs, a) =
      (xs ++ samples.map fun r => scale_raw_gyro r.1,
       ys ++ samples.map fun r => scale_raw_gyro r.2.1,
       zs ++ samples.map fun r => scale_raw_gyro r.2.2,
       samples.foldl
         (fun b r => obs b
           (scale_raw_gyro r.1, scale_raw_gyro r.2.1, scale_raw_gyro r.2.2))
         a) := by
  induction samples generalizing xs ys zs a with
  | nil => simp
  | cons h t ih =>
    simp only [List.foldl_cons, gyro_calib_step, get_scaled_gyro, sub_zero,
      List.map_cons, ih, List.append_assoc, List.singleton_append]

/-- Claim C4: run_gyro_calibration zeroes any pre-existing bias before
sampling, accumulates bias-uncorrected scaled samples, and both returns
and stores the per-axis arithmetic mean of those samples; on a constant
stream it returns the (scaled) injected constant exactly, regardless of
the bias held before the call. -/
theorem C4_gyro_calibration_mean {A : Type} (st : IMUState)
    (samples : List (ℤ × ℤ × ℤ)) (obs : A → ℚ × ℚ × ℚ → A) (a0 : A)
    (hne : samples ≠ []) :
    (run_gyro_calibration st samples obs a0).2.1 =
        (fmean (samples.map fun r => scale_raw_gyro r.1),
         fmean (samples.map fun r => scale_raw_gyro r.2.1),
         fmean (samples.map fun r => scale_raw_gyro r.2.2)) ∧
      (run_gyro_calibration st samples obs a0).1 =
        ⟨fmean (samples.map fun r => scale_raw_gyro r.1),
         fmean (samples.map fun r => scale_raw_gyro r.2.1),
         fmean (samples.map fun r => scale_raw_gyro r.2.2)⟩ ∧
      ∀ r : ℤ × ℤ × ℤ, samples = List.replicate samples.length r →
        (run_gyro_calibration st samples obs a0).2.1 =
          (scale_raw_gyro r.1, scale_raw_gyro r.2.1, scale_raw_gyro r.2.2) := by
  have hrun :
      (run_gyro_calibration st samples obs a0).2.1 =
        (fmean (samples.map fun r => scale_raw_gyro r.1),
         fmean (samples.map fun r => scale_raw_gyro r.2.1),
         fmean (samples.map fun r => scale_raw_gyro r.2.2)) := by
    unfold run_gyro_calibration
    rw [gyro_calib_foldl]
    simp
  have hrun' :
      (run_gyro_calibration st samples obs a0).1 =
        ⟨fmean (samples.map fun r => scale_raw_gyro r.1),
         fmean (samples.map fun r => scale_raw_gyro r.2.1),
         fmean (samples.map fun r => scale_raw_gyro r.2.2)⟩ := by
    unfold run_gyro_calibration
    rw [gyro_calib_foldl]
    simp
  refine ⟨hrun, hrun', ?_⟩
  intro r hconst
  have hlen : (samples.length : ℚ) ≠ 0 := by
    have : samples.length ≠ 0 := fun h => hne (List.length_eq_zero.mp h)
    exact_mod_cast this
  have hmean : ∀ f : ℤ × ℤ × ℤ → ℚ, fmean (samples.map f) = f r := by
    intro f
    conv_lhs => rw [hconst]
    rw [List.map_replicate]
    unfold fmean
    rw [List.sum_replicate, List.length_replicate, nsmul_eq_mul]
    exact mul_div_cancel_left₀ _ hlen
  rw [hrun, hmean (fun r => scale_raw_gyro r.1),
    hmean (fun r => scale_raw_gyro r.2.1),
    hmean (fun r => scale_raw_gyro r.2.2)]

/-- Witness for claim C4 on a concrete constant stream of two samples with
a nonzero pre-existing bias: the returned offsets are the scaled constants
(100, 200, 300) raw counts = (1.75, 3.5, 5.25) deg/sec. -/
theorem C4_witness :
    (run_gyro_calibration (A := Unit) ⟨1, -2, 3⟩
        [(100, 200, 300), (100, 200, 300)] (fun a _ => a) ()).2.1 =
      (1.75, 3.5, 5.25) :=
  (((C4_gyro_calibration_mean ⟨1, -2, 3⟩ [(100, 200, 300), (100, 200, 300)]
      (fun a _ => a) () (by decide)).2.2) (100, 200, 300) (by decide)).trans
    (by norm_num [scale_raw_gyro, gyro_sens, gyro_scale, Prod.mk.injEq])

/-- Claim C9: the offsets computed, stored, and returned by
run_gyro_calibration do not depend on the observer callback (nor on its
initial state, nor on the pre-existing bias): two runs over the same raw
sample stream agree on the final driver state and the returned offsets. -/
theorem C9_observer_noninterference {A B : Type} (st st' : IMUState)
    (samples : List (ℤ × ℤ × ℤ)) (obs : A → ℚ × ℚ × ℚ → A)
    (obs' : B → ℚ × ℚ × ℚ → B) (a0 : A) (b0 : B) :
    (run_gyro_calibration st samples obs a0).1 =
        (run_gyro_calibration st' samples obs' b0).1 ∧
      (run_gyro_calibration st samples obs a0).2.1 =
        (run_gyro_calibration st' samples obs' b0).2.1 := by
  constructor <;>
    · unfold run_gyro_calibration
      rw [gyro_calib_foldl, gyro_calib_foldl]

/-! ## Post-reset busy-wait (IMU.reset, Magnometer.reset) -/

/-- Fuel-indexed observation of the reset busy-wait loop, polling from
poll index i: returns the index of the first poll at which the device
reports the reset bit cleared, or none if the loop is still polling after
the given number of polls.  bits j is the value of the reset status bit
read on the j-th poll. -/
def reset_wait (bits : ℕ → Bool) (i : ℕ) : ℕ → Option ℕ
  | 0 => none
  | fuel + 1 => if bits i then reset_wait bits (i + 1) fuel else some i

/-- The busy-wait in IMU.reset and Magnometer.reset: after setting the
reset bit, poll the status bit and keep sleeping while it reads set.  The
source loop has no retry counter and no exit other than the bit reading
clear. -/
def reset_busy_wait (bits : ℕ → Bool) (fuel : ℕ) : Option ℕ :=
  reset_wait bits 0 fuel

/-- The busy-wait is still polling after a given number of polls exactly
when every poll so far read the bit as set. -/
theorem reset_wait_none_iff (bits : ℕ → Bool) (fuel : ℕ) :
    ∀ i, reset_wait bits i fuel = none ↔
      ∀ j, i ≤ j → j < i + fuel → bits j = true := by
  induction fuel with
  | zero =>
    intro i
    simp only [reset_wait]
    constructor
    · intro _ j h1 h2
      omega
    · intro _
      trivial
  | succ fuel ih =>
    intro i
    simp only [reset_wait]
    by_cases hb : bits i
    · rw [if_pos hb, ih (i + 1)]
      constructor
      · intro h j h1 h2
        rcases Nat.eq_or_lt_of_le h1 with rfl | h1'
        · exact hb
        · exact h j h1' (by omega)
      · intro h j h1 h2
        exact h j (by omega) (by omega)
    · rw [if_neg hb]
      constructor
      · intro h
        exact (Option.some_ne_none i h).elim
      · intro h
        exact absurd (h i le_rfl (by omega)) hb

/-- Claim C6 (counterexample): it is false that the busy-wait is bounded
by a retry cap after which it stops polling — for a device whose reset
status bit never clears (every poll reads set), the loop is still polling
after any number of polls, and the source raises no device-unresponsive
fault (the loop has no other exit). -/
theorem C6_counterexample :
    ¬ ∃ cap : ℕ, ∀ bits : ℕ → Bool, reset_busy_wait bits cap ≠ none := by
  rintro ⟨cap, h⟩
  refine h (fun _ => true) ?_
  unfold reset_busy_wait
  rw [reset_wait_none_iff]
  intro j _ _
  rfl

/-- Claim C6 (amended): the post-reset busy-wait has no retry cap.  After
any number of polls it is still waiting exactly when every poll so far
read the reset bit as set; it terminates at the first poll reading the bit
clear, and it never raises a fault — an unresponsive device is polled
forever. -/
theorem C6_amended_no_retry_cap (bits : ℕ → Bool) (fuel : ℕ) :
    reset_busy_wait bits fuel = none ↔ ∀ i < fuel, bits i = true := by
  unfold reset_busy_wait
  rw [reset_wait_none_iff]
  constructor
  · intro h i hi
    exact h i (Nat.zero_le i) (by omega)
  · intro h j _ hj
    exact h j (by omega)

/-! ## Quaternion averaging (accel.py avg_quats) -/

/-- numpy dot product of two quaternions viewed as 4-vectors, as used by
avg_quats. -/
def qdot (a b : ℍ[ℚ]) : ℚ :=
  a.re * b.re + a.imI * b.imI + a.imJ * b.imJ + a.imK * b.imK

/-- accel.py avg_quats: starting from the zero accumulator, negate each
sample whose dot product with the running sum is negative, then
accumulate.  The source wraps the accumulated vector in the ahrs
Quaternion constructor, which renormalizes (a positive rescaling); the
accumulated vector itself is modelled here. -/
def avg_quats (quats : List ℍ[ℚ]) : ℍ[ℚ] :=
  quats.foldl (fun accum q => if qdot accum q < 0 then accum - q else accum + q) 0

/-- Claim C8: averaging the sign-flipped pair [q, −q] of a unit quaternion
accumulates to 2 • q — a positive multiple of q, hence equivalent to q up
to sign after renormalization — and not the degenerate zero vector. -/
theorem C8_avg_quats_sign_flip (q : ℍ[ℚ]) (hq : qdot q q = 1) :
    avg_quats [q, -q] = (2 : ℚ) • q ∧ (2 : ℚ) • q ≠ 0 := by
  have step1 : qdot 0 q = 0 := by
    simp [qdot]
  have step2 : qdot q (-q) = -1 := by
    have : qdot q (-q) = -(qdot q q) := by
      simp only [qdot, Quaternion.neg_re, Quaternion.neg_imI,
        Quaternion.neg_imJ, Quaternion.neg_imK]
      ring
    rw [this, hq]
  constructor
  · show List.foldl _ 0 [q, -q] = (2 : ℚ) • q
    rw [List.foldl_cons, if_neg (by rw [step1]; norm_num), zero_add,
      List.foldl_cons, if_pos (by rw [step2]; norm_num), List.foldl_nil,
      sub_neg_eq_add, ← two_smul ℚ q]
  · intro h
    rcases smul_eq_zero.mp h with h2 | hq0
    · norm_num at h2
    · rw [hq0] at hq
      simp [qdot] at hq

/-- Witness for claim C8 at the unit quaternion q = 1 = (1,0,0,0). -/
theorem C8_witness :
    avg_quats [1, -1] = (2 : ℚ) • (1 : ℍ[ℚ]) ∧ (2 : ℚ) • (1 : ℍ[ℚ]) ≠ 0 :=
  C8_avg_quats_sign_flip 1 (by simp [qdot])

/-! ## Orientation filter start-up (chaoscope.py HeadingReader.start) -/

/-- A 3-vector reading embedded as a pure quaternion (0, x, y, z), the
gyro term fed to the fusion step. -/
def vec_quat (v : Fin 3 → ℚ) : ℍ[ℚ] :=
  ⟨0, v 0, v 1, v 2⟩

/-- Modelled from the spec: the fusion step Madgwick.updateMARG comes from
the ahrs library and has no source in this repository; §4.6 step 3
describes it as a "gradient-descent correction of a gyro-integrated
quaternion using accelerometer-derived gravity direction and
magnetometer-derived heading direction".  The gyro integration rate is
qDot = (1/2) · q ⊗ (0, gyr); corr abstracts the gradient-descent
correction term, an arbitrary function of the prior quaternion and the
accelerometer and magnetometer vectors only; the final renormalization (a
positive rescaling) is omitted. -/
def madgwick_updateMARG (corr : ℍ[ℚ] → (Fin 3 → ℚ) → (Fin 3 → ℚ) → ℍ[ℚ])
    (dt : ℚ) (q : ℍ[ℚ]) (gyr acc mag : Fin 3 → ℚ) : ℍ[ℚ] :=
  q + dt • ((1 / 2 : ℚ) • (q * vec_quat gyr) - corr q acc mag)

/-- HeadingReader.start: self._last_heading is initialized to
Quaternion(), the identity quaternion (1,0,0,0); start() takes one reading
(gyr, acc, mag) and stores the result of a full updateMARG fusion step on
it at the nominal Dt of 20 ms, before the periodic timer starts. -/
def heading_reader_start (corr : ℍ[ℚ] → (Fin 3 → ℚ) → (Fin 3 → ℚ) → ℍ[ℚ])
    (gyr acc mag : Fin 3 → ℚ) : ℍ[ℚ] :=
  madgwick_updateMARG corr (20 / 1000) 1 gyr acc mag

/-- Claim C5 (counterexample): the first stored heading is not a function
of the accelerometer and magnetometer alone.  At the concrete reading
acc = (0,0,−1), mag = (1,0,0), changing the gyroscope from (0,0,0) to
(1,0,0) changes the stored heading, whatever the gradient-descent
correction term of the fusion step is — so no tilt-only (gyro-free)
seeding takes place. -/
theorem C5_counterexample :
    ¬ ∃ corr : ℍ[ℚ] → (Fin 3 → ℚ) → (Fin 3 → ℚ) → ℍ[ℚ],
      heading_reader_start corr ![1, 0, 0] ![0, 0, -1] ![1, 0, 0] =
        heading_reader_start corr ![0, 0, 0] ![0, 0, -1] ![1, 0, 0] := by
  rintro ⟨corr, h⟩
  have h1 := congrArg QuaternionAlgebra.imI h
  simp [heading_reader_start, madgwick_updateMARG, vec_quat, one_mul] at h1
  linarith

/-- Claim C5 (amended): on its first fused update, before the periodic
timer starts, HeadingReader.start seeds the orientation state with the
identity quaternion and stores a full Madgwick fused update of that
identity prior — gyroscope included, not a tilt-only estimate: two first
readings agreeing on accelerometer and magnetometer but differing in
gyroscope yield headings differing by exactly the gyro-integration
increment (dt/2) • (0, gyr − gyr'). -/
theorem C5_amended_first_update_uses_gyro
    (corr : ℍ[ℚ] → (Fin 3 → ℚ) → (Fin 3 → ℚ) → ℍ[ℚ])
    (gyr gyr' acc mag : Fin 3 → ℚ) :
    heading_reader_start corr gyr acc mag =
        madgwick_updateMARG corr (20 / 1000) 1 gyr acc mag ∧
      heading_reader_start corr gyr acc mag -
          heading_reader_start corr gyr' acc mag =
        (20 / 1000 / 2 : ℚ) • (vec_quat gyr - vec_quat gyr') := by
  refine ⟨rfl, ?_⟩
  simp only [heading_reader_start, madgwick_updateMARG, one_mul]
  ext <;> simp [vec_quat] <;> ring

/-! ## Magnetometer correction (Magnometer.get_scaled_mag) -/

/-- Calibration state held by the magnetometer driver: hard-iron offsets
(self._hard_offsets, a 3-vector) and soft-iron matrix
(self._soft_offsets, 3×3). -/
structure MagState where
  hard : Fin 3 → ℚ
  soft : Matrix (Fin 3) (Fin 3) ℚ

/-- Magnometer._get_scaled_mag_array: each raw axis scaled by
_scale_raw_mag. -/
def scaled_mag_array (raw : ℤ × ℤ × ℤ) : Fin 3 → ℚ :=
  ![scale_raw_mag raw.1, scale_raw_mag raw.2.1, scale_raw_mag raw.2.2]

/-- Magnometer._get_corrected_mag_array on a single vector:
(scaled - self._hard_offsets) @ self._soft_offsets, a row vector times the
3×3 matrix. -/
def corrected_mag_array (st : MagState) (scaled : Fin 3 → ℚ) : Fin 3 → ℚ :=
  Matrix.vecMul (scaled - st.hard) st.soft

/-- Magnometer.get_scaled_mag: read raw, scale each axis, correct. -/
def get_scaled_mag (st : MagState) (raw : ℤ × ℤ × ℤ) : Fin 3 → ℚ :=
  corrected_mag_array st (scaled_mag_array raw)

/-- The claim's correction rule, stated from the spec: subtract the hard
offset componentwise, then right-multiply the result by the soft-iron
matrix. -/
def mag_correction_rule (scaled hard : Fin 3 → ℚ)
    (soft : Matrix (Fin 3) (Fin 3) ℚ) : Fin 3 → ℚ :=
  fun j => ∑ i, (scaled i - hard i) * soft i j

/-- Claim C7: for every raw magnetometer vector and every stored
calibration, get_scaled_mag returns the sensitivity-scaled, clamped vector
corrected by componentwise hard-offset subtraction followed by
right-multiplication by the soft-iron matrix. -/
theorem C7_get_scaled_mag_rule (st : MagState) (raw : ℤ × ℤ × ℤ) :
    get_scaled_mag st raw =
      mag_correction_rule (scaled_mag_array raw) st.hard st.soft := by
  funext j
  simp [get_scaled_mag, corrected_mag_array, mag_correction_rule,
    Matrix.vecMul, Matrix.dotProduct, Pi.sub_apply]

/-! ## Magnetometer ellipsoid fit (Magnometer._ellipsoid_fit,
Magnometer.run_mag_calibration) -/

/-- numpy/scipy matrix inverse (linalg.inv) on its non-singular domain:
determinant-scaled adjugate; 0 on singular input (where the library would
raise instead — the singular path is modelled separately for the error
claim). -/
def mat_inv {n : ℕ} (A : Matrix (Fin n) (Fin n) ℚ) : Matrix (Fin n) (Fin n) ℚ :=
  if A.det = 0 then 0 else A.det⁻¹ • A.adjugate

/-- Index embedding for the numpy block slice S[:6] of a 10-dimensional
index. -/
def fin6to10 (i : Fin 6) : Fin 10 := Fin.castLE (by norm_num) i

/-- Index embedding for the numpy block slice S[6:] of a 10-dimensional
index. -/
def fin4to10 (i : Fin 4) : Fin 10 := ⟨i.1 + 6, by omega⟩

/-- np.argmax over the 6 eigenvalues: the index of the first occurrence of
the largest value. -/
def argmax6 (w : Fin 6 → ℚ) : Fin 6 :=
  (List.finRange 6).foldl (fun best i => if w best < w i then i else best) 0

/-- Oracle for np.linalg.eig on the 6×6 fit matrix: the library call has
no source here.  It returns the eigenvalue vector and the eigenvector
matrix whose columns correspond to the eigenvalues in order; the
real-eigenvalue case is modelled (for real eigenvalues np.argmax picks the
largest value, which is the largest real part).  The source pipeline and
the spec pipeline consult the same oracle. -/
abbrev EigOracle := Matrix (Fin 6) (Fin 6) ℚ → (Fin 6 → ℚ) × Matrix (Fin 6) (Fin 6) ℚ

/-- The fixed 6×6 constraint matrix C of the Li & Griffiths fit (eq. 8,
k = 4), as written in the source. -/
def constraintC : Matrix (Fin 6) (Fin 6) ℚ :=
  !![-1, 1, 1, 0, 0, 0;
     1, -1, 1, 0, 0, 0;
     1, 1, -1, 0, 0, 0;
     0, 0, 0, -4, 0, 0;
     0, 0, 0, 0, -4, 0;
     0, 0, 0, 0, 0, -4]

/-- The design matrix D of Magnometer._ellipsoid_fit, from the source: a
10×N array whose k-th column is
[x², y², z², 2yz, 2xz, 2xy, 2x, 2y, 2z, 1] for the k-th sample column of
s. -/
def design_D {N : ℕ} (s : Matrix (Fin 3) (Fin N) ℚ) : Matrix (Fin 10) (Fin N) ℚ :=
  Matrix.of fun i k =>
    ![s 0 k ^ 2, s 1 k ^ 2, s 2 k ^ 2,
      2 * s 1 k * s 2 k, 2 * s 0 k * s 2 k, 2 * s 0 k * s 1 k,
      2 * s 0 k, 2 * s 1 k, 2 * s 2 k, 1] i

/-- Magnometer._ellipsoid_fit, from the source: scatter matrix
S = D·Dᵀ, blocks S11/S12/S21/S22, E = inv(C)·(S11 − S12·(inv(S22)·S21)),
eigenvector of the argmax eigenvalue sign-normalized on its first
component, v2 = (−inv(S22)·S21)·v1, and the quadratic-form parameters
(M, n, d). -/
def ellipsoid_fit {N : ℕ} (eig : EigOracle) (s : Matrix (Fin 3) (Fin N) ℚ) :
    Matrix (Fin 3) (Fin 3) ℚ × (Fin 3 → ℚ) × ℚ :=
  let D := design_D s
  let S := D * D.transpose
  let S11 := S.submatrix fin6to10 fin6to10
  let S12 := S.submatrix fin6to10 fin4to10
  let S21 := S.submatrix fin4to10 fin6to10
  let S22 := S.submatrix fin4to10 fin4to10
  let E := mat_inv constraintC * (S11 - S12 * (mat_inv S22 * S21))
  let ew := (eig E).1
  let EV := (eig E).2
  let v1raw : Fin 6 → ℚ := fun r => EV r (argmax6 ew)
  let v1 : Fin 6 → ℚ := if v1raw 0 < 0 then -v1raw else v1raw
  let v2 : Fin 4 → ℚ := (-mat_inv S22 * S21).mulVec v1
  let M : Matrix (Fin 3) (Fin 3) ℚ :=
    !![v1 0, v1 5, v1 4;
       v1 5, v1 1, v1 3;
       v1 4, v1 3, v1 2]
  let nvec : Fin 3 → ℚ := ![v2 0, v2 1, v2 2]
  let d : ℚ := v2 3
  (M, nvec, d)

/-- Magnometer.run_mag_calibration from the collected sample cloud onward
(the happy, non-singular path of source lines 258–283): ellipsoid fit on
data.T, hard iron b = −(M⁻¹·n), soft iron
A₁ = (F / sqrt(nᵀ·M⁻¹·n − d)) · sqrtm(M); the driver stores
hard_offsets := b.T.flatten() and soft_offsets := A₁.T, returned here as
the pair (hard, soft).  eig, sqrtFn and sqrtm are oracles for
np.linalg.eig, np.sqrt and scipy.linalg.sqrtm. -/
def run_mag_calibration_fit {N : ℕ} (eig : EigOracle) (sqrtFn : ℚ → ℚ)
    (sqrtm : Matrix (Fin 3) (Fin 3) ℚ → Matrix (Fin 3) (Fin 3) ℚ)
    (F : ℚ) (data : Fin N → Fin 3 → ℚ) :
    (Fin 3 → ℚ) × Matrix (Fin 3) (Fin 3) ℚ :=
  let fit := ellipsoid_fit eig (Matrix.of fun i k => data k i)
  let M := fit.1
  let nvec := fit.2.1
  let d := fit.2.2
  let M1 := mat_inv M
  let b : Fin 3 → ℚ := -(M1.mulVec nvec)
  let A1 : Matrix (Fin 3) (Fin 3) ℚ :=
    (F / sqrtFn (Matrix.dotProduct nvec (M1.mulVec nvec) - d)) • sqrtm M
  (b, A1.transpose)

/-- Step 1 of the spec's §4.5 algorithm: the 10-element design row
d = [x², y², z², 2yz, 2xz, 2xy, 2x, 2y, 2z, 1] of a sample (x, y, z). -/
def design_row (p : Fin 3 → ℚ) : Fin 10 → ℚ :=
  ![p 0 ^ 2, p 1 ^ 2, p 2 ^ 2, 2 * p 1 * p 2, 2 * p 0 * p 2, 2 * p 0 * p 1,
    2 * p 0, 2 * p 1, 2 * p 2, 1]

/-- Steps 2–5 of the spec's §4.5 algorithm, written from the spec text:
scatter matrix S = Dᵀ·D over the design rows, blocks S11 (6×6 quadratic),
S12, S21, S22 (4×4 linear+constant), E = C⁻¹·(S11 − S12·S22⁻¹·S21), the
eigenvector v1 of the largest eigenvalue sign-normalized so its first
component is non-negative, v2 = −S22⁻¹·S21·v1, and the assembled
quadratic-form matrix M (diagonal from the x²,y²,z² coefficients,
off-diagonal the half cross-term coefficients), linear vector n, scalar
d. -/
def ellipsoid_fit_spec {N : ℕ} (eig : EigOracle) (data : Fin N → Fin 3 → ℚ) :
    Matrix (Fin 3) (Fin 3) ℚ × (Fin 3 → ℚ) × ℚ :=
  let D : Matrix (Fin N) (Fin 10) ℚ := Matrix.of fun k i => design_row (data k) i
  let S := D.transpose * D
  let S11 := S.submatrix fin6to10 fin6to10
  let S12 := S.submatrix fin6to10 fin4to10
  let S21 := S.submatrix fin4to10 fin6to10
  let S22 := S.submatrix fin4to10 fin4to10
  let E := mat_inv constraintC * (S11 - S12 * mat_inv S22 * S21)
  let ew := (eig E).1
  let EV := (eig E).2
  let v1raw : Fin 6 → ℚ := fun r => EV r (argmax6 ew)
  let v1 : Fin 6 → ℚ := if v1raw 0 < 0 then -v1raw else v1raw
  let v2 : Fin 4 → ℚ := -((mat_inv S22).mulVec (S21.mulVec v1))
  let M : Matrix (Fin 3) (Fin 3) ℚ :=
    !![v1 0, v1 5, v1 4;
       v1 5, v1 1, v1 3;
       v1 4, v1 3, v1 2]
  let nvec : Fin 3 → ℚ := ![v2 0, v2 1, v2 2]
  let d : ℚ := v2 3
  (M, nvec, d)

/-- Steps 6–8 of the spec's §4.5 algorithm, written from the spec text:
hard-iron offset b = −M⁻¹·n, soft-iron correction
A⁻¹ = (F / sqrt(nᵀ·M⁻¹·n − d)) · sqrtm(M), stored as hard_offsets = bᵀ
and soft_offsets = A⁻¹ᵀ. -/
def mag_calibration_spec {N : ℕ} (eig : EigOracle) (sqrtFn : ℚ → ℚ)
    (sqrtm : Matrix (Fin 3) (Fin 3) ℚ → Matrix (Fin 3) (Fin 3) ℚ)
    (F : ℚ) (data : Fin N → Fin 3 → ℚ) :
    (Fin 3 → ℚ) × Matrix (Fin 3) (Fin 3) ℚ :=
  let fit := ellipsoid_fit_spec eig data
  let M := fit.1
  let nvec := fit.2.1
  let d := fit.2.2
  let b : Fin 3 → ℚ := -((mat_inv M).mulVec nvec)
  let Ainv : Matrix (Fin 3) (Fin 3) ℚ :=
    (F / sqrtFn (Matrix.dotProduct nvec ((mat_inv M).mulVec nvec) - d)) • sqrtm M
  (b, Ainv.transpose)

/-- The source's 10×N design matrix is the transpose of the spec's N×10
matrix of design rows. -/
theorem design_D_transpose {N : ℕ} (data : Fin N → Fin 3 → ℚ) :
    design_D (Matrix.of fun i k => data k i) =
      (Matrix.of fun k i => design_row (data k) i).transpose := rfl

/-- The source ellipsoid fit computes exactly the spec's §4.5 steps 1–5,
for any eigendecomposition oracle and sample cloud. -/
theorem ellipsoid_fit_agrees_spec {N : ℕ} (eig : EigOracle)
    (data : Fin N → Fin 3 → ℚ) :
    ellipsoid_fit eig (Matrix.of fun i k => data k i) =
      ellipsoid_fit_spec eig data := by
  simp only [ellipsoid_fit, ellipsoid_fit_spec, design_D_transpose,
    Matrix.transpose_transpose, Matrix.mul_assoc, Matrix.neg_mul,
    Matrix.neg_mulVec, Matrix.mulVec_mulVec]

/-- Claim C2: run_mag_calibration computes and stores exactly the spec's
formulas — E = C⁻¹·(S11 − S12·S22⁻¹·S21) over the fixed constraint matrix
C, the sign-normalized eigenvector of the largest eigenvalue, and from the
assembled (M, n, d): hard_offsets = (−M⁻¹·n)ᵀ and
soft_offsets = ((F / sqrt(nᵀ·M⁻¹·n − d)) · sqrtm(M))ᵀ — for any
eigendecomposition, square-root and matrix-square-root oracles, any
expected field magnitude F, and any sample cloud. -/
theorem C2_run_mag_calibration_formulas {N : ℕ} (eig : EigOracle)
    (sqrtFn : ℚ → ℚ)
    (sqrtm : Matrix (Fin 3) (Fin 3) ℚ → Matrix (Fin 3) (Fin 3) ℚ)
    (F : ℚ) (data : Fin N → Fin 3 → ℚ) :
    run_mag_calibration_fit eig sqrtFn sqrtm F data =
      mag_calibration_spec eig sqrtFn sqrtm F data := by
  simp only [run_mag_calibration_fit, mag_calibration_spec,
    ellipsoid_fit_agrees_spec]

/-! ## Magnetometer calibration error path (run_mag_calibration after the
fit, source lines 262–283) -/

/-- The error scipy.linalg.inv raises on a singular matrix
(numpy.linalg.LinAlgError). -/
inductive CalibError where
  | singular
deriving DecidableEq

/-- scipy.linalg.inv as called on the fitted 3×3 matrix M: raises on a
singular input, otherwise returns the inverse. -/
def sci_inv3 (A : Matrix (Fin 3) (Fin 3) ℚ) :
    Except CalibError (Matrix (Fin 3) (Fin 3) ℚ) :=
  if A.det = 0 then .error .singular else .ok (A.det⁻¹ • A.adjugate)

/-- np.sqrt with IEEE float behaviour, embedded with none playing NaN: the
square root of a negative number is NaN.  sqrtFn is the square-root oracle
on the nonnegative domain. -/
def np_sqrt (sqrtFn : ℚ → ℚ) (x : ℚ) : Option ℚ :=
  if x < 0 then none else some (sqrtFn x)

/-- run_mag_calibration from the fitted (M, n, d) onward, with the
library error and NaN behaviour made explicit: scipy.linalg.inv raises on
singular M (so the driver's stored offsets are never assigned); otherwise
b = −(M⁻¹·n) and A₁ = F / sqrt(nᵀ·M⁻¹·n − d) · sqrtm(M) are computed and
stored, where a NaN radicand square root propagates none through the
division and multiplication into every entry of the stored and returned
soft-offsets matrix (np.real of NaN is NaN).  sqrtmM is the value of
scipy.linalg.sqrtm at M. -/
def mag_calibration_finish (M : Matrix (Fin 3) (Fin 3) ℚ) (nvec : Fin 3 → ℚ)
    (d F : ℚ) (sqrtFn : ℚ → ℚ) (sqrtmM : Matrix (Fin 3) (Fin 3) ℚ) :
    Except CalibError ((Fin 3 → ℚ) × Matrix (Fin 3) (Fin 3) (Option ℚ)) :=
  match sci_inv3 M with
  | .error e => .error e
  | .ok M1 =>
    let b : Fin 3 → ℚ := -(M1.mulVec nvec)
    let radicand : ℚ := Matrix.dotProduct nvec (M1.mulVec nvec) - d
    let s : Option ℚ := np_sqrt sqrtFn radicand
    let A1 : Matrix (Fin 3) (Fin 3) (Option ℚ) :=
      Matrix.of fun i j => s.map fun sv => F / sv * sqrtmM i j
    .ok (b, A1.transpose)

/-- Claim C3 (code behaviour at the failing input): for the fit output
M = diag(1, 1, −1) — invertible but not positive-definite — with n = 0 and
d = 1, the radicand nᵀ·M⁻¹·n − d = −1 is negative, np.sqrt yields NaN, and
run_mag_calibration surfaces no calibration-failed error: it stores and
returns a calibration record whose soft-iron matrix is NaN in every entry,
whatever the square-root and matrix-square-root oracles produce. -/
theorem C3_code_behaviour (sqrtFn : ℚ → ℚ)
    (sqrtmM : Matrix (Fin 3) (Fin 3) ℚ) :
    ∃ res, mag_calibration_finish !![1, 0, 0; 0, 1, 0; 0, 0, -1] 0 1 1000
        sqrtFn sqrtmM = .ok res ∧
      ∀ i j, res.2 i j = none := by
  have hdet : (!![1, 0, 0; 0, 1, 0; 0, 0, -1] : Matrix (Fin 3) (Fin 3) ℚ).det = -1 := by
    simp [Matrix.det_fin_three]
  have hinv : sci_inv3 !![1, 0, 0; 0, 1, 0; 0, 0, -1] =
      .ok ((-1 : ℚ)⁻¹ • (!![1, 0, 0; 0, 1, 0; 0, 0, -1] :
        Matrix (Fin 3) (Fin 3) ℚ).adjugate) := by
    unfold sci_inv3
    rw [hdet]
    norm_num
  unfold mag_calibration_finish
  rw [hinv]
  refine ⟨_, rfl, ?_⟩
  intro i j
  have hrad : Matrix.dotProduct (0 : Fin 3 → ℚ)
      (((-1 : ℚ)⁻¹ • (!![1, 0, 0; 0, 1, 0; 0, 0, -1] :
        Matrix (Fin 3) (Fin 3) ℚ).adjugate).mulVec 0) - 1 = -1 := by
    rw [Matrix.zero_dotProduct]
    norm_num
  simp only [Matrix.transpose_apply, Matrix.of_apply, hrad, np_sqrt]
  norm_num

end Chaoscope
